import Mathlib

/-!
Verification of the HMT-Suite download engine (`utils/downloader.py`) and the
GitHub URL classifier (`utils/github_handler.py`).

The download engine is modelled as a pure function over a `World` oracle that
answers every external query the Python code makes (filesystem stat, HTTP
metadata probe, body bytes of each ranged request, disk-usage stat, rename
success).  The function returns the `Result` dictionary the code builds, the
final filesystem state of the destination directory, and the ordered trace of
externally visible events (network requests, verifications, merges, unlinks,
renames), mirroring the control flow of `FileDownloader.download` line by line.
Machine integers are modelled by `Nat` (sizes are non-negative in the code);
the float expression `int(required_bytes * 1.1)` in `check_disk_space` is
modelled by exact rational arithmetic `required * 11 / 10`.
-/

namespace HMT

/-- Externally visible events of one `FileDownloader.download` call, in
program order.  `probe` is the initial metadata request (HEAD, possibly with
its in-line status-code fallback GET); `getStream` is a GET that opens a body
stream; `partReq i k` is attempt `k` of the ranged request for part `i`. -/
inductive Ev where
  | probe : Ev
  | getStream : Ev
  | diskCheck : Ev
  | partReq (i k : Nat) : Ev
  | sleepEv (d : Nat) : Ev
  | verifyPart (i : Nat) : Ev
  | mergeEv : Ev
  | verifyFinal : Ev
  | unlinkTmpOut : Ev
  | unlinkDest : Ev
  | renameEv : Ev
  | rmTempDir : Ev
  deriving DecidableEq

/-- Events generated inside worker tasks (ranged requests and backoff
sleeps). -/
def isWorkerEv : Ev → Bool
  | .partReq _ _ => true
  | .sleepEv _ => true
  | _ => false

/-- Events generated by the per-part verification loop. -/
def isVerifyEv : Ev → Bool
  | .verifyPart _ => true
  | _ => false

/-- State of the destination directory: size of the file at the final
destination path (if present), size of the staging `.tmp` file (if present),
and whether the per-part temp directory exists. -/
structure FS where
  dest : Option Nat
  tmpOut : Option Nat
  tempDir : Bool
  deriving DecidableEq

/-- Model of `DownloadProgress` (downloader.py lines 95-116): the shared progress
record.  The mutex only serializes updates; the data it guards is this. -/
structure DownloadProgress where
  total_size : Nat
  downloaded : Nat
  percentage : Nat
  status : String
  deriving DecidableEq

/-- Model of `DownloadProgress.update` (lines 107-112): add the byte delta and, when
the total is known, recompute the percentage as `int(downloaded/total*100)`
(floor, since all quantities are non-negative). -/
def DownloadProgress.update (p : DownloadProgress) (delta : Nat) : DownloadProgress :=
  let d := p.downloaded + delta
  { p with
    downloaded := d
    percentage := if 0 < p.total_size then d * 100 / p.total_size else p.percentage }

/-- Model of `DownloadProgress.set_total` (lines 114-116). -/
def DownloadProgress.set_total (p : DownloadProgress) (t : Nat) : DownloadProgress :=
  { p with total_size := t }

/-- The distinct failure messages raised inside `download` (each carries the
data interpolated into the corresponding Python exception string). -/
inductive ErrMsg where
  | partsFailed : ErrMsg
  | partVerifyFailed : ErrMsg
  | mergedSizeMismatch (expected : Nat) : ErrMsg
  | sizeMismatch (expected : Nat) : ErrMsg
  | insufficientSpace (required available : Nat) : ErrMsg
  | renameFailed : ErrMsg
  | streamFailed : ErrMsg
  deriving DecidableEq

/-- The `Result` dictionary returned by `download` (success flag, `skipped`
key, failure message if any, final progress snapshot). -/
structure DResult where
  success : Bool
  skipped : Bool
  error : Option ErrMsg
  progress : DownloadProgress
  deriving DecidableEq

/-- Oracle answering every external query one `download` call makes:
filesystem pre-state, HTTP metadata, per-part per-attempt outcomes and byte
counts, disk-usage stat (`none` = the stat itself raises), single-stream
outcome, and whether the final rename succeeds. -/
structure World where
  fileExists : Bool
  existingSize : Nat
  headOk : Bool
  contentLength : Nat
  acceptRanges : String
  diskFree : Option Nat
  partOutcome : Nat → Nat → Bool
  partBytes : Nat → Nat
  partFailBytes : Nat → Nat → Nat
  singleOk : Bool
  singleBytes : Nat
  renameOk : Bool
  rmtreeOk : Bool

/-- Lower-case an ASCII letter (models `str.lower()` on header values). -/
def lowerChar (c : Char) : Char :=
  if 65 ≤ c.toNat ∧ c.toNat ≤ 90 then Char.ofNat (c.toNat + 32) else c

def lowerStr (l : List Char) : List Char := l.map lowerChar

/-- Whether `needle` occurs contiguously at the front of `hay`. -/
def listStartsWith : List Char → List Char → Bool
  | [], _ => true
  | _ :: _, [] => false
  | a :: as, b :: bs => a = b && listStartsWith as bs

/-- Whether `needle` occurs contiguously anywhere in `hay` (Python `in` on strings). -/
def listContains (needle : List Char) : List Char → Bool
  | [] => listStartsWith needle []
  | b :: bs => listStartsWith needle (b :: bs) || listContains needle bs

/-- Lines 294-296 / 301-303: `'bytes' in accept_ranges_header.lower()`. -/
def headerIndicatesRanges (h : String) : Bool :=
  listContains "bytes".toList (lowerStr h.toList)

/-- Model of `check_disk_space` (lines 36-46): `none` models the stat raising, in
which case the check optimistically passes; otherwise compare free bytes
against the size inflated by the 10% buffer (`int(required * 1.1)`). -/
def check_disk_space (diskFree : Option Nat) (required_bytes : Nat) : Bool :=
  match diskFree with
  | none => true
  | some available => required_bytes * 11 / 10 ≤ available

/-- Line 324: `accept_ranges and total_size > self.min_part_size`. -/
def decideStrategy (acceptRangesHeader : String) (total_size min_part_size : Nat) : Bool :=
  headerIndicatesRanges acceptRangesHeader && decide (min_part_size < total_size)

/-- Lines 333-340: number of workers and part size.  Start from the
configured ceiling; if the resulting part size is below the minimum, shrink
the worker count to `max 1 (total / min_part_size)` and recompute. -/
def computePlan (total_size max_workers min_part_size : Nat) : Nat × Nat :=
  let num_workers := max_workers
  let part_size := total_size / num_workers
  if part_size < min_part_size then
    let nw := max 1 (total_size / min_part_size)
    (nw, total_size / nw)
  else
    (num_workers, part_size)

/-- Lines 344-350: the `(start, end)` byte ranges; the last range ends at
`total_size - 1`, absorbing the division remainder. -/
def mkRanges (total_size part_size num_workers : Nat) : List (Nat × Nat) :=
  (List.range num_workers).map fun i =>
    let start := i * part_size
    (start, if i = num_workers - 1 then total_size - 1 else start + part_size - 1)

/-- Inclusive length of a byte range (`end - start + 1`). -/
def rangeLen (r : Nat × Nat) : Nat := r.2 - r.1 + 1

/-- The `_download_part` retry loop (lines 186-204) for part `i`, starting at
attempt `a` with `fuel` attempts left (`fuel` is `max_retries - a`).
Returns (success, events, bytes fed to `progress.update`).  A failed attempt
that is not the last sleeps `retry_delay * (attempt + 1)` seconds with
`retry_delay = 2`; bytes written by a failed attempt still reached the
progress counter (the part file is re-opened with `'wb'` on retry but the
counter is never decremented). -/
def runPart (w : World) (i : Nat) : Nat → Nat → Bool × List Ev × Nat
  | _, 0 => (false, [], 0)
  | a, fuel + 1 =>
    if w.partOutcome i a then
      (true, [Ev.partReq i a], w.partBytes i)
    else if fuel = 0 then
      (false, [Ev.partReq i a], w.partFailBytes i a)
    else
      let r := runPart w i (a + 1) fuel
      (r.1, Ev.partReq i a :: Ev.sleepEv (2 * (a + 1)) :: r.2.1, w.partFailBytes i a + r.2.2)

/-- One whole `_download_part` task: `max_retries = 3` attempts. -/
def downloadPart (w : World) (i : Nat) : Bool × List Ev × Nat :=
  runPart w i 0 3

/-- Lines 384-393: all submitted part tasks run to completion (the executor
shutdown waits); the transfer succeeds only if every task returned True. -/
def runParts (w : World) : Nat → Bool × List Ev × Nat
  | 0 => (true, [], 0)
  | n + 1 =>
    let r := runParts w n
    let p := downloadPart w n
    (r.1 && p.1, r.2.1 ++ p.2.1, r.2.2 + p.2.2)

/-- Lines 399-406: verify parts in order against their declared range
lengths, stopping at the first mismatch (`break`).  `k` is the index of the
first range in `l`. -/
def verifyAux (w : World) : Nat → List (Nat × Nat) → Bool × List Ev
  | _, [] => (true, [])
  | k, r :: rest =>
    if w.partBytes k = rangeLen r then
      let v := verifyAux w (k + 1) rest
      (v.1, Ev.verifyPart k :: v.2)
    else
      (false, [Ev.verifyPart k])

/-- Size of the concatenation of the first `n` part files (lines 416-419). -/
def mergedBytes (w : World) : Nat → Nat
  | 0 => 0
  | n + 1 => mergedBytes w n + w.partBytes n

/-- Destination directory state before the transfer starts. -/
def initFS (w : World) : FS :=
  { dest := if w.fileExists then some w.existingSize else none
    tmpOut := none
    tempDir := false }

/-- The outer `except` handler (lines 525-546): mark the progress record as
failed, best-effort unlink the staging `.tmp` file if it exists, and return a
failure `Result` value instead of propagating the exception. -/
def finishError (fs : FS) (p : DownloadProgress) (evs : List Ev) (e : ErrMsg) :
    DResult × FS × List Ev :=
  let p := { p with status := "error" }
  let r : DResult := ⟨false, false, some e, p⟩
  match fs.tmpOut with
  | some _ => (r, { fs with tmpOut := none }, evs ++ [Ev.unlinkTmpOut])
  | none => (r, fs, evs)

/-- Success epilogue (lines 500-523): status `completed`, percentage forced
to 100, success `Result`. -/
def finishSuccess (fs : FS) (p : DownloadProgress) (evs : List Ev) :
    DResult × FS × List Ev :=
  let p := { p with status := "completed", percentage := 100 }
  (⟨true, false, none, p⟩, fs, evs)

/-- Best-effort removal of the per-part temp directory (lines 437-440 and
448-452): the `rmtree` is attempted if the directory exists and any error it
raises is swallowed. -/
def cleanupDir (w : World) (fs : FS) (evs : List Ev) : FS × List Ev :=
  if fs.tempDir then
    (if w.rmtreeOk then { fs with tempDir := false } else fs, evs ++ [Ev.rmTempDir])
  else
    (fs, evs)

/-- Atomic install (lines 431-434 parallel / 495-498 single): unlink an
existing destination file, then rename the staging file over it; a rename
failure raises, triggering the temp-dir cleanup (parallel path; a no-op for
the single path, whose `tempDir` is false) and the outer handler. -/
def installPhase (w : World) (fs : FS) (p : DownloadProgress) (evs : List Ev) :
    DResult × FS × List Ev :=
  let step :=
    if fs.dest.isSome then ({ fs with dest := none }, evs ++ [Ev.unlinkDest])
    else (fs, evs)
  let fs := step.1
  let evs := step.2
  if w.renameOk then
    let m := fs.tmpOut.getD 0
    let step2 := cleanupDir w { fs with dest := some m, tmpOut := none } (evs ++ [Ev.renameEv])
    finishSuccess step2.1 p step2.2
  else
    let step2 := cleanupDir w fs evs
    finishError step2.1 p step2.2 ErrMsg.renameFailed

/-- The parallel branch (lines 332-453): plan ranges, run all part tasks,
abort on any permanent part failure, verify each part size, merge into the
staging file, verify the merged size (deleting the staging file on mismatch),
then install; every raise passes through the temp-dir cleanup and the outer
handler. -/
def parallelPhase (w : World) (fs : FS) (p : DownloadProgress) (evs : List Ev)
    (total max_workers min_part_size : Nat) : DResult × FS × List Ev :=
  let plan := computePlan total max_workers min_part_size
  let n := plan.1
  let ranges := mkRanges total plan.2 n
  let fs := { fs with tempDir := true }
  let r := runParts w n
  let p := p.update r.2.2
  let evs := evs ++ r.2.1
  if r.1 then
    let v := verifyAux w 0 ranges
    let evs := evs ++ v.2
    if v.1 then
      let m := mergedBytes w n
      let fs := { fs with tmpOut := some m }
      let evs := evs ++ [Ev.mergeEv, Ev.verifyFinal]
      if m = total then
        installPhase w fs p evs
      else
        let fs := { fs with tmpOut := none }
        let evs := evs ++ [Ev.unlinkTmpOut]
        let step := cleanupDir w fs evs
        finishError step.1 p step.2 (ErrMsg.mergedSizeMismatch total)
    else
      let step := cleanupDir w fs evs
      finishError step.1 p step.2 ErrMsg.partVerifyFailed
  else
    let step := cleanupDir w fs evs
    finishError step.1 p step.2 ErrMsg.partsFailed

/-- The single-stream branch (lines 455-498): stream into the staging file,
verify its size when the total is known (deleting it on mismatch, skipping
the check entirely when the total is unknown), then install. -/
def singlePhase (w : World) (fs : FS) (p : DownloadProgress) (evs : List Ev)
    (total : Nat) : DResult × FS × List Ev :=
  let evs := evs ++ [Ev.getStream]
  let fs := { fs with tmpOut := some w.singleBytes }
  let p := p.update w.singleBytes
  if w.singleOk then
    if 0 < total then
      let evs := evs ++ [Ev.verifyFinal]
      if w.singleBytes = total then
        installPhase w fs p evs
      else
        let fs := { fs with tmpOut := none }
        let evs := evs ++ [Ev.unlinkTmpOut]
        finishError fs p evs (ErrMsg.sizeMismatch total)
    else
      installPhase w fs p evs
  else
    finishError fs p evs ErrMsg.streamFailed

/-- Model of `FileDownloader.download` (lines 206-546): metadata probe, filename
resolution, existing-file short-circuit, metadata extraction (with the
fallback GET when the probe failed), disk preflight when the size is known,
strategy decision, and the chosen transfer branch. -/
def download (w : World) (overwrite : Bool) (max_workers min_part_size : Nat) :
    DResult × FS × List Ev :=
  let fs := initFS w
  let p : DownloadProgress := ⟨0, 0, 0, "downloading"⟩
  let evs := [Ev.probe]
  if w.fileExists && !overwrite then
    let p : DownloadProgress := ⟨w.existingSize, w.existingSize, 100, "completed"⟩
    (⟨true, true, none, p⟩, fs, evs)
  else
    let evs := if w.headOk then evs else evs ++ [Ev.getStream]
    let total := w.contentLength
    let p := p.set_total total
    if 0 < total then
      let evs := evs ++ [Ev.diskCheck]
      if check_disk_space w.diskFree total then
        if decideStrategy w.acceptRanges total min_part_size then
          parallelPhase w fs p evs total max_workers min_part_size
        else
          singlePhase w fs p evs total
      else
        finishError fs p evs (ErrMsg.insufficientSpace total (w.diskFree.getD 0))
    else
      if decideStrategy w.acceptRanges total min_part_size then
        parallelPhase w fs p evs total max_workers min_part_size
      else
        singlePhase w fs p evs total

/-! Concrete worlds used to evaluate the model on closed inputs. -/

/-- A destination file of 42 bytes already exists; server metadata is
available. -/
def wExist : World :=
  { fileExists := true, existingSize := 42, headOk := true, contentLength := 0
    acceptRanges := "", diskFree := some 1000, partOutcome := fun _ _ => true
    partBytes := fun _ => 0, partFailBytes := fun _ _ => 0, singleOk := true
    singleBytes := 0, renameOk := true, rmtreeOk := true }

/-- A 100-byte ranged transfer that succeeds: with `min_part_size = 30` the
plan is 3 parts of 33 bytes, the last of 34. -/
def wPar : World :=
  { fileExists := false, existingSize := 0, headOk := true, contentLength := 100
    acceptRanges := "bytes", diskFree := some 1000000, partOutcome := fun _ _ => true
    partBytes := fun i => if i = 2 then 34 else 33, partFailBytes := fun _ _ => 0
    singleOk := true, singleBytes := 100, renameOk := true, rmtreeOk := true }

/-- Same transfer but every attempt of part 1 fails. -/
def wParFail : World := { wPar with partOutcome := fun i _ => decide (i ≠ 1) }

/-- Same transfer but part 2 comes back one byte short. -/
def wParBad : World := { wPar with partBytes := fun _ => 33 }

/-- A 100-byte transfer without range support (single-stream path). -/
def wSingle : World := { wPar with acceptRanges := "none" }

/-- Single-stream transfer whose body is one byte short. -/
def wSingleBad : World := { wSingle with singleBytes := 99 }

/-- Single-stream transfer with unknown content length. -/
def wUnknown : World := { wSingle with contentLength := 0 }

/-- Single-stream transfer with unknown content length whose stream
raises. -/
def wUnknownFail : World := { wUnknown with singleOk := false }

/-- Only 10 bytes free for a 100-byte transfer (110 required with buffer). -/
def wNoSpace : World := { wSingle with diskFree := some 10 }

/-- The disk-usage stat itself fails. -/
def wNoStat : World := { wSingle with diskFree := none }

/-- Overwrite of an existing 5-byte file whose final rename fails. -/
def wRenFail : World :=
  { wSingle with fileExists := true, existingSize := 5, renameOk := false }

/-! ### GitHub URL classifier (`utils/github_handler.py`) -/

/-- Python `str.split('/')`: split at every slash, keeping empty pieces;
the result is never empty. -/
def splitSlash : List Char → List (List Char)
  | [] => [[]]
  | c :: cs =>
    match splitSlash cs with
    | [] => [[]]
    | h :: t => if c = '/' then [] :: h :: t else (c :: h) :: t

/-- Python `str.strip('/')`. -/
def stripSlashes (l : List Char) : List Char :=
  ((l.dropWhile (· = '/')).reverse.dropWhile (· = '/')).reverse

/-- Python `'/'.join(...)`. -/
def joinSlash : List (List Char) → List Char
  | [] => []
  | [x] => x
  | x :: y :: rest => x ++ '/' :: joinSlash (y :: rest)

/-- Characters after the first `://` marker, if any. -/
def afterMarker : List Char → Option (List Char)
  | [] => none
  | c :: cs =>
    if c = ':' && listStartsWith "//".toList cs then some (cs.drop 2)
    else afterMarker cs

/-- The `(netloc, path)` pair of `urllib.parse.urlparse`, for the absolute
`scheme://netloc/path` URLs this handler deals with. -/
def pyUrlparse (url : String) : List Char × List Char :=
  match afterMarker url.toList with
  | none => ([], url.toList)
  | some rest => (rest.takeWhile (· ≠ '/'), rest.dropWhile (· ≠ '/'))

/-- Python `parts[i]` under a prior length guard. -/
def pyIx (l : List (List Char)) (i : Nat) : List Char :=
  (l.get? i).getD []

/-- The dictionary returned by `GitHubHandler.parse_github_url`: the union of
the keys of its five possible shapes. -/
structure GHInfo where
  type : String
  user : String := ""
  repo : String := ""
  branch : String := ""
  tag : String := ""
  filename : Option String := none
  file_path : String := ""
  download_url : Option String := none
  error : Option String := none
  deriving DecidableEq

/-- The `github.com` branch of `parse_github_url` (github_handler.py lines 49-87):
release-asset links keep the input URL, `blob` links are rewritten to the
raw-content host, and anything else with at least two path segments is the
whole-repository case with a hardcoded `main`-branch archive URL. -/
def parseGitHubParts (url : String) (parts : List (List Char)) : GHInfo :=
  if 2 ≤ parts.length then
    let user := pyIx parts 0
    let repo := pyIx parts 1
    if 5 ≤ parts.length ∧ pyIx parts 2 = "releases".toList ∧ pyIx parts 3 = "download".toList then
      { type := "release_file", user := ⟨user⟩, repo := ⟨repo⟩, tag := ⟨pyIx parts 4⟩
        filename := if 5 < parts.length then some ⟨pyIx parts 5⟩ else none
        download_url := some url }
    else if 5 ≤ parts.length ∧ pyIx parts 2 = "blob".toList then
      let branch := pyIx parts 3
      let fp := joinSlash (parts.drop 4)
      { type := "repo_file", user := ⟨user⟩, repo := ⟨repo⟩, branch := ⟨branch⟩
        file_path := ⟨fp⟩
        download_url :=
          some ⟨"https://raw.githubusercontent.com/".toList ++
            user ++ '/' :: repo ++ '/' :: branch ++ '/' :: fp⟩ }
    else
      { type := "repository", user := ⟨user⟩, repo := ⟨repo⟩
        download_url :=
          some ⟨"https://github.com/".toList ++
            user ++ '/' :: repo ++ "/archive/refs/heads/main.zip".toList⟩ }
  else
    { type := "unknown", error := some "Unable to parse GitHub URL" }

/-- Model of `GitHubHandler.parse_github_url` (lines 23-92): pure string
decomposition of the URL; the `raw.githubusercontent.com` case falls through
to the `github.com` case when its path has fewer than four segments, exactly
as in the source. -/
def parse_github_url (url : String) : GHInfo :=
  let np := pyUrlparse url
  let netloc := np.1
  let parts := splitSlash (stripSlashes np.2)
  if listContains "raw.githubusercontent.com".toList netloc ∧ 4 ≤ parts.length then
    { type := "raw_file", user := ⟨pyIx parts 0⟩, repo := ⟨pyIx parts 1⟩
      branch := ⟨pyIx parts 2⟩, file_path := ⟨joinSlash (parts.drop 3)⟩
      download_url := some url }
  else if listContains "github.com".toList netloc then
    parseGitHubParts url parts
  else
    { type := "unknown", error := some "Unable to parse GitHub URL" }

/-! ### Helper lemmas -/

@[simp] theorem finishError_result (fs : FS) (p : DownloadProgress) (evs : List Ev) (e : ErrMsg) :
    (finishError fs p evs e).1 = ⟨false, false, some e, { p with status := "error" }⟩ := by
  unfold finishError; cases h : fs.tmpOut <;> simp

@[simp] theorem finishError_tmpOut (fs : FS) (p : DownloadProgress) (evs : List Ev) (e : ErrMsg) :
    (finishError fs p evs e).2.1.tmpOut = none := by
  unfold finishError; cases h : fs.tmpOut <;> simp [h]

@[simp] theorem finishError_dest (fs : FS) (p : DownloadProgress) (evs : List Ev) (e : ErrMsg) :
    (finishError fs p evs e).2.1.dest = fs.dest := by
  unfold finishError; cases h : fs.tmpOut <;> simp

@[simp] theorem finishError_tempDir (fs : FS) (p : DownloadProgress) (evs : List Ev) (e : ErrMsg) :
    (finishError fs p evs e).2.1.tempDir = fs.tempDir := by
  unfold finishError; cases h : fs.tmpOut <;> simp

theorem finishError_mem {fs : FS} {p : DownloadProgress} {evs : List Ev} {e : ErrMsg}
    {x : Ev} (h : x ∈ (finishError fs p evs e).2.2) : x ∈ evs ∨ x = Ev.unlinkTmpOut := by
  unfold finishError at h
  cases htmp : fs.tmpOut <;> rw [htmp] at h <;> simp_all

theorem finishError_mem_of {fs : FS} {p : DownloadProgress} {evs : List Ev} {e : ErrMsg}
    {x : Ev} (h : x ∈ evs) : x ∈ (finishError fs p evs e).2.2 := by
  unfold finishError
  cases htmp : fs.tmpOut <;> simp [h]

@[simp] theorem finishSuccess_result (fs : FS) (p : DownloadProgress) (evs : List Ev) :
    (finishSuccess fs p evs).1 = ⟨true, false, none, { p with status := "completed", percentage := 100 }⟩ := rfl

@[simp] theorem finishSuccess_fs (fs : FS) (p : DownloadProgress) (evs : List Ev) :
    (finishSuccess fs p evs).2.1 = fs := rfl

@[simp] theorem finishSuccess_evs (fs : FS) (p : DownloadProgress) (evs : List Ev) :
    (finishSuccess fs p evs).2.2 = evs := rfl

@[simp] theorem cleanupDir_dest (w : World) (fs : FS) (evs : List Ev) :
    (cleanupDir w fs evs).1.dest = fs.dest := by
  unfold cleanupDir; split <;> [split <;> simp; simp]

@[simp] theorem cleanupDir_tmpOut (w : World) (fs : FS) (evs : List Ev) :
    (cleanupDir w fs evs).1.tmpOut = fs.tmpOut := by
  unfold cleanupDir; split <;> [split <;> simp; simp]

theorem cleanupDir_mem {w : World} {fs : FS} {evs : List Ev} {x : Ev}
    (h : x ∈ (cleanupDir w fs evs).2) : x ∈ evs ∨ x = Ev.rmTempDir := by
  unfold cleanupDir at h
  split at h <;> simp_all

theorem cleanupDir_mem_of {w : World} {fs : FS} {evs : List Ev} {x : Ev}
    (h : x ∈ evs) : x ∈ (cleanupDir w fs evs).2 := by
  unfold cleanupDir
  split <;> simp [h]

theorem cleanupDir_tempDir (w : World) (fs : FS) (evs : List Ev)
    (h : w.rmtreeOk = true) : (cleanupDir w fs evs).1.tempDir = false ∨ fs.tempDir = false := by
  unfold cleanupDir
  split
  · exact Or.inl (by simp [h])
  · next hfs => exact Or.inr (by simpa using hfs)

theorem installPhase_result (w : World) (fs : FS) (p : DownloadProgress) (evs : List Ev) :
    (installPhase w fs p evs).1 =
      if w.renameOk then ⟨true, false, none, { p with status := "completed", percentage := 100 }⟩
      else ⟨false, false, some ErrMsg.renameFailed, { p with status := "error" }⟩ := by
  unfold installPhase
  split <;> split <;> simp

theorem cleanup_succ_mem {w : World} {fs : FS} {p : DownloadProgress} {evs : List Ev} {x : Ev}
    (h : x ∈ (finishSuccess (cleanupDir w fs evs).1 p (cleanupDir w fs evs).2).2.2) :
    x ∈ evs ∨ x = Ev.rmTempDir := by
  simp only [finishSuccess_evs] at h
  exact cleanupDir_mem h

theorem cleanup_err_mem {w : World} {fs : FS} {p : DownloadProgress} {evs : List Ev}
    {e : ErrMsg} {x : Ev}
    (h : x ∈ (finishError (cleanupDir w fs evs).1 p (cleanupDir w fs evs).2 e).2.2) :
    x ∈ evs ∨ x = Ev.rmTempDir ∨ x = Ev.unlinkTmpOut := by
  rcases finishError_mem h with h | h
  · rcases cleanupDir_mem h with h | h
    · exact Or.inl h
    · exact Or.inr (Or.inl h)
  · exact Or.inr (Or.inr h)

theorem installPhase_mem {w : World} {fs : FS} {p : DownloadProgress} {evs : List Ev} {x : Ev}
    (h : x ∈ (installPhase w fs p evs).2.2) :
    x ∈ evs ∨ x = Ev.unlinkDest ∨ x = Ev.renameEv ∨ x = Ev.rmTempDir ∨ x = Ev.unlinkTmpOut := by
  unfold installPhase at h
  split at h <;> dsimp only at h <;> split at h
  · rcases cleanup_succ_mem h with h | h
    · simp only [List.mem_append, List.mem_singleton] at h; tauto
    · tauto
  · rcases cleanup_err_mem h with h | h
    · simp only [List.mem_append, List.mem_singleton] at h; tauto
    · tauto
  · rcases cleanup_succ_mem h with h | h
    · simp only [List.mem_append, List.mem_singleton] at h; tauto
    · tauto
  · rcases cleanup_err_mem h with h | h
    · exact Or.inl h
    · tauto

theorem runPart_mem {w : World} {i : Nat} {x : Ev} :
    ∀ {a f : Nat}, x ∈ (runPart w i a f).2.1 → isWorkerEv x = true := by
  intro a f
  induction f generalizing a with
  | zero => intro h; simp [runPart] at h
  | succ f ih =>
    intro h
    unfold runPart at h
    split at h
    · simp at h; simp [h, isWorkerEv]
    · split at h
      · simp at h; simp [h, isWorkerEv]
      · simp only [List.mem_cons] at h
        rcases h with h | h | h
        · simp [h, isWorkerEv]
        · simp [h, isWorkerEv]
        · exact ih h

theorem runParts_mem {w : World} {x : Ev} :
    ∀ {n : Nat}, x ∈ (runParts w n).2.1 → isWorkerEv x = true := by
  intro n
  induction n with
  | zero => intro h; simp [runParts] at h
  | succ n ih =>
    intro h
    unfold runParts at h
    simp only [List.mem_append] at h
    rcases h with h | h
    · exact ih h
    · exact runPart_mem h

theorem verifyAux_mem {w : World} {x : Ev} :
    ∀ {k : Nat} {l : List (Nat × Nat)}, x ∈ (verifyAux w k l).2 → isVerifyEv x = true := by
  intro k l
  induction l generalizing k with
  | nil => intro h; simp [verifyAux] at h
  | cons r rest ih =>
    intro h
    unfold verifyAux at h
    split at h
    · simp only [List.mem_cons] at h
      rcases h with h | h
      · simp [h, isVerifyEv]
      · exact ih h
    · simp at h; simp [h, isVerifyEv]

/-- The in-order part verification succeeds exactly when every part's size
equals its declared range length. -/
theorem verifyAux_true_iff (w : World) :
    ∀ (l : List (Nat × Nat)) (k : Nat),
      (verifyAux w k l).1 = true ↔
        ∀ j r, l.get? j = some r → w.partBytes (k + j) = rangeLen r := by
  intro l
  induction l with
  | nil => intro k; simp [verifyAux]
  | cons r rest ih =>
    intro k
    unfold verifyAux
    split
    · next heq =>
      dsimp only
      rw [ih (k + 1)]
      constructor
      · intro h j rj hj
        cases j with
        | zero =>
          simp only [List.get?_cons_zero, Option.some.injEq] at hj
          subst hj
          simpa using heq
        | succ j =>
          simp only [List.get?_cons_succ] at hj
          have hh := h j rj hj
          have e : k + 1 + j = k + (j + 1) := by omega
          rwa [e] at hh
      · intro h j rj hj
        have hh := h (j + 1) rj (by simpa using hj)
        have e : k + (j + 1) = k + 1 + j := by omega
        rwa [e] at hh
    · next heq =>
      constructor
      · intro h
        exact absurd h (by simp)
      · intro h
        exact absurd (by simpa using h 0 r rfl) heq

theorem singlePhase_mem {w : World} {fs : FS} {p : DownloadProgress} {evs : List Ev}
    {total : Nat} {x : Ev} (h : x ∈ (singlePhase w fs p evs total).2.2) :
    x ∈ evs ∨ x = Ev.getStream ∨ x = Ev.verifyFinal ∨ x = Ev.unlinkTmpOut ∨
      x = Ev.unlinkDest ∨ x = Ev.renameEv ∨ x = Ev.rmTempDir := by
  unfold singlePhase at h
  split at h
  · split at h
    · split at h
      · rcases installPhase_mem h with h | h | h | h | h
        · simp only [List.mem_append, List.mem_singleton] at h; tauto
        all_goals tauto
      · rcases finishError_mem h with h | h
        · simp only [List.mem_append, List.mem_singleton] at h; tauto
        · tauto
    · rcases installPhase_mem h with h | h | h | h | h
      · simp only [List.mem_append, List.mem_singleton] at h; tauto
      all_goals tauto
  · rcases finishError_mem h with h | h
    · simp only [List.mem_append, List.mem_singleton] at h; tauto
    · tauto

theorem parallelPhase_mem {w : World} {fs : FS} {p : DownloadProgress} {evs : List Ev}
    {total mw mp : Nat} {x : Ev} (h : x ∈ (parallelPhase w fs p evs total mw mp).2.2) :
    x ∈ evs ∨ isWorkerEv x = true ∨ isVerifyEv x = true ∨ x = Ev.mergeEv ∨
      x = Ev.verifyFinal ∨ x = Ev.unlinkTmpOut ∨ x = Ev.unlinkDest ∨
      x = Ev.renameEv ∨ x = Ev.rmTempDir := by
  unfold parallelPhase at h
  dsimp only at h
  split at h
  · split at h
    · split at h
      · rcases installPhase_mem h with h | h | h | h | h
        · simp only [List.mem_append, List.mem_cons, List.mem_singleton, List.not_mem_nil,
            or_false] at h
          rcases h with ((h | h) | h) | h | h
          · tauto
          · have := runParts_mem h; tauto
          · have := verifyAux_mem h; tauto
          all_goals tauto
        all_goals tauto
      · rcases cleanup_err_mem h with h | h
        · simp only [List.mem_append, List.mem_cons, List.mem_singleton, List.not_mem_nil,
            or_false] at h
          rcases h with (((h | h) | h) | h | h) | h
          · tauto
          · have := runParts_mem h; tauto
          · have := verifyAux_mem h; tauto
          all_goals tauto
        · tauto
    · rcases cleanup_err_mem h with h | h
      · simp only [List.mem_append] at h
        rcases h with (h | h) | h
        · tauto
        · have := runParts_mem h; tauto
        · have := verifyAux_mem h; tauto
      · tauto
  · rcases cleanup_err_mem h with h | h
    · simp only [List.mem_append] at h
      rcases h with h | h
      · tauto
      · have := runParts_mem h; tauto
    · tauto

theorem download_skip (w : World) (mw mp : Nat) (h : w.fileExists = true) :
    download w false mw mp =
      (⟨true, true, none, ⟨w.existingSize, w.existingSize, 100, "completed"⟩⟩,
        initFS w, [Ev.probe]) := by
  unfold download
  simp [h]

theorem download_par (w : World) (o : Bool) (mw mp : Nat)
    (h1 : w.fileExists = true → o = true)
    (h2 : check_disk_space w.diskFree w.contentLength = true)
    (h3 : decideStrategy w.acceptRanges w.contentLength mp = true) :
    download w o mw mp =
      parallelPhase w (initFS w) ⟨w.contentLength, 0, 0, "downloading"⟩
        ((if w.headOk then [Ev.probe] else [Ev.probe, Ev.getStream]) ++ [Ev.diskCheck])
        w.contentLength mw mp := by
  have htot : 0 < w.contentLength := by
    have h4 := h3
    simp only [decideStrategy, Bool.and_eq_true, decide_eq_true_eq] at h4
    omega
  have hsc : (w.fileExists && !o) = false := by
    cases hfe : w.fileExists
    · simp
    · simp [h1 hfe]
  unfold download
  rw [hsc]
  simp [htot, h2, h3, DownloadProgress.set_total]

theorem download_single_pos (w : World) (o : Bool) (mw mp : Nat)
    (h1 : w.fileExists = true → o = true)
    (htot : 0 < w.contentLength)
    (h2 : check_disk_space w.diskFree w.contentLength = true)
    (h3 : decideStrategy w.acceptRanges w.contentLength mp = false) :
    download w o mw mp =
      singlePhase w (initFS w) ⟨w.contentLength, 0, 0, "downloading"⟩
        ((if w.headOk then [Ev.probe] else [Ev.probe, Ev.getStream]) ++ [Ev.diskCheck])
        w.contentLength := by
  have hsc : (w.fileExists && !o) = false := by
    cases hfe : w.fileExists
    · simp
    · simp [h1 hfe]
  unfold download
  rw [hsc]
  simp [htot, h2, h3, DownloadProgress.set_total]

theorem download_single_zero (w : World) (o : Bool) (mw mp : Nat)
    (h1 : w.fileExists = true → o = true)
    (htot : w.contentLength = 0) :
    download w o mw mp =
      singlePhase w (initFS w) ⟨w.contentLength, 0, 0, "downloading"⟩
        (if w.headOk then [Ev.probe] else [Ev.probe, Ev.getStream])
        w.contentLength := by
  have hsc : (w.fileExists && !o) = false := by
    cases hfe : w.fileExists
    · simp
    · simp [h1 hfe]
  have h3 : decideStrategy w.acceptRanges 0 mp = false := by
    simp [decideStrategy]
  unfold download
  rw [hsc]
  simp [htot, h3, DownloadProgress.set_total]

theorem download_nospace (w : World) (o : Bool) (mw mp : Nat)
    (h1 : w.fileExists = true → o = true)
    (htot : 0 < w.contentLength)
    (h2 : check_disk_space w.diskFree w.contentLength = false) :
    download w o mw mp =
      finishError (initFS w) ⟨w.contentLength, 0, 0, "downloading"⟩
        ((if w.headOk then [Ev.probe] else [Ev.probe, Ev.getStream]) ++ [Ev.diskCheck])
        (ErrMsg.insufficientSpace w.contentLength (w.diskFree.getD 0)) := by
  have hsc : (w.fileExists && !o) = false := by
    cases hfe : w.fileExists
    · simp
    · simp [h1 hfe]
  unfold download
  rw [hsc]
  simp [htot, h2, DownloadProgress.set_total]

theorem singlePhase_result (w : World) (fs : FS) (p : DownloadProgress) (evs : List Ev)
    (total : Nat) :
    (singlePhase w fs p evs total).1 =
      (if w.singleOk then
        if 0 < total then
          if w.singleBytes = total then
            (if w.renameOk then
              ⟨true, false, none,
                { p.update w.singleBytes with status := "completed", percentage := 100 }⟩
             else
              ⟨false, false, some ErrMsg.renameFailed,
                { p.update w.singleBytes with status := "error" }⟩)
          else
            ⟨false, false, some (ErrMsg.sizeMismatch total),
              { p.update w.singleBytes with status := "error" }⟩
        else
          (if w.renameOk then
            ⟨true, false, none,
              { p.update w.singleBytes with status := "completed", percentage := 100 }⟩
           else
            ⟨false, false, some ErrMsg.renameFailed,
              { p.update w.singleBytes with status := "error" }⟩)
      else
        ⟨false, false, some ErrMsg.streamFailed,
          { p.update w.singleBytes with status := "error" }⟩ : DResult) := by
  unfold singlePhase
  split
  · split
    · split
      · rw [installPhase_result]; try simp_all
      · try simp_all
    · rw [installPhase_result]; try simp_all
  · try simp_all

theorem parallelPhase_result (w : World) (fs : FS) (p : DownloadProgress) (evs : List Ev)
    (total mw mp : Nat) :
    (parallelPhase w fs p evs total mw mp).1 =
      (let n := (computePlan total mw mp).1
       let pr := p.update (runParts w n).2.2
       if (runParts w n).1 then
        if (verifyAux w 0 (mkRanges total (computePlan total mw mp).2 n)).1 then
          if mergedBytes w n = total then
            (if w.renameOk then
              ⟨true, false, none, { pr with status := "completed", percentage := 100 }⟩
             else
              ⟨false, false, some ErrMsg.renameFailed, { pr with status := "error" }⟩)
          else
            ⟨false, false, some (ErrMsg.mergedSizeMismatch total), { pr with status := "error" }⟩
        else
          ⟨false, false, some ErrMsg.partVerifyFailed, { pr with status := "error" }⟩
       else
        ⟨false, false, some ErrMsg.partsFailed, { pr with status := "error" }⟩ : DResult) := by
  unfold parallelPhase
  dsimp only
  split
  · split
    · split
      · rw [installPhase_result]; try simp_all
      · try simp_all
    · try simp_all
  · try simp_all

theorem computePlan_facts (total mw mp : Nat) (hmw : 1 ≤ mw) (hmp : 1 ≤ mp)
    (hlt : mp < total) :
    (computePlan total mw mp).1 = min mw (total / mp)
    ∧ 1 ≤ (computePlan total mw mp).1
    ∧ 1 ≤ (computePlan total mw mp).2
    ∧ (computePlan total mw mp).1 * (computePlan total mw mp).2 ≤ total := by
  have hmp0 : 0 < mp := hmp
  have hmw0 : 0 < mw := hmw
  unfold computePlan
  dsimp only
  split
  · next hcase =>
    have ha : total < mp * mw := (Nat.div_lt_iff_lt_mul hmw0).1 hcase
    have hb : total / mp < mw :=
      (Nat.div_lt_iff_lt_mul hmp0).2 (by rw [Nat.mul_comm]; exact ha)
    have hc : 1 ≤ total / mp := (Nat.one_le_div_iff hmp0).2 (Nat.le_of_lt hlt)
    have hmax : max 1 (total / mp) = total / mp := Nat.max_eq_right hc
    have hmin : min mw (total / mp) = total / mp := Nat.min_eq_right (Nat.le_of_lt hb)
    rw [hmax]
    refine ⟨hmin.symm, hc, ?_, ?_⟩
    · exact (Nat.one_le_div_iff hc).2 (Nat.div_le_self total mp)
    · rw [Nat.mul_comm]
      exact Nat.div_mul_le_self total (total / mp)
  · next hcase =>
    have hge : mp ≤ total / mw := Nat.le_of_not_lt hcase
    have hmul : mp * mw ≤ total := (Nat.le_div_iff_mul_le hmw0).1 hge
    have hmin : min mw (total / mp) = mw :=
      Nat.min_eq_left ((Nat.le_div_iff_mul_le hmp0).2 (by rw [Nat.mul_comm]; exact hmul))
    refine ⟨hmin.symm, hmw, Nat.le_trans hmp hge, ?_⟩
    rw [Nat.mul_comm]
    exact Nat.div_mul_le_self total mw

theorem mkRanges_get (total ps n j : Nat) (hj : j < n) :
    (mkRanges total ps n).get? j =
      some (j * ps, if j = n - 1 then total - 1 else j * ps + ps - 1) := by
  unfold mkRanges
  rw [List.get?_map, List.get?_range hj]
  rfl

/-! ### Claims -/

/-- C2: `download` selects the parallel strategy if and only if the probed
`Accept-Ranges` value, lower-cased, contains `bytes` and the content length
strictly exceeds the configured minimum part size; an unknown size (0)
always yields `false`; and any ranged part request in a `download` trace
certifies that this decision function returned `true`.  The decision is a
deterministic (pure) function of the probed metadata. -/
theorem c2_strategy_selection :
    (∀ (h : String) (total mp : Nat),
      decideStrategy h total mp = true ↔
        (listContains "bytes".toList (lowerStr h.toList) = true ∧ mp < total))
    ∧ (∀ (h : String) (mp : Nat), decideStrategy h 0 mp = false)
    ∧ (∀ (w : World) (o : Bool) (mw mp i k : Nat),
        Ev.partReq i k ∈ (download w o mw mp).2.2 →
        decideStrategy w.acceptRanges w.contentLength mp = true) := by
  refine ⟨?_, ?_, ?_⟩
  · intro h total mp
    simp [decideStrategy, headerIndicatesRanges]
  · intro h mp
    simp [decideStrategy]
  · intro w o mw mp i k hmem
    by_cases hd : decideStrategy w.acceptRanges w.contentLength mp = true
    · exact hd
    · exfalso
      rw [Bool.not_eq_true] at hd
      by_cases hfe : w.fileExists = true ∧ o = false
      · obtain ⟨hfe1, rfl⟩ := hfe
        rw [download_skip w mw mp hfe1] at hmem
        simp at hmem
      · have h1 : w.fileExists = true → o = true := by
          intro hh
          rcases Bool.eq_false_or_eq_true o with ho | ho
          · exact ho
          · exact absurd ⟨hh, ho⟩ hfe
        rcases Nat.eq_zero_or_pos w.contentLength with htot | htot
        · rw [download_single_zero w o mw mp h1 htot] at hmem
          rcases singlePhase_mem hmem with hx | hx | hx | hx | hx | hx | hx
          · revert hx; cases hho : w.headOk <;> simp
          all_goals simp at hx
        · cases h2 : check_disk_space w.diskFree w.contentLength
          · rw [download_nospace w o mw mp h1 htot h2] at hmem
            rcases finishError_mem hmem with hx | hx
            · revert hx; cases hho : w.headOk <;> simp
            · simp at hx
          · rw [download_single_pos w o mw mp h1 htot h2 hd] at hmem
            rcases singlePhase_mem hmem with hx | hx | hx | hx | hx | hx | hx
            · revert hx; cases hho : w.headOk <;> simp
            all_goals simp at hx

/-- C2 witness: the decision at concrete metadata, and a concrete parallel
transfer whose trace contains a ranged part request. -/
theorem c2_strategy_selection_witness :
    decideStrategy "bytes" 100 30 = true ∧
    decideStrategy "" 0 30 = false ∧
    decideStrategy wPar.acceptRanges wPar.contentLength 30 = true := by
  refine ⟨(c2_strategy_selection.1 "bytes" 100 30).2 (by decide),
    c2_strategy_selection.2.1 "" 30,
    c2_strategy_selection.2.2 wPar false 16 30 0 0 (by decide)⟩

/-- C3: for every parallel plan with known total size (and sane positive
configuration), the worker count is `min ceiling (total / min_chunk)`; the
ranges start at 0, are contiguous in order, every chunk but the last has
length `part_size`, and the last chunk ends at `total - 1` absorbing the
remainder.  In particular, 100,000,000 bytes with a 10 MB (10,000,000-byte)
minimum chunk and a ceiling of 16 gives 10 chunks of 10,000,000 bytes. -/
theorem c3_parallel_ranges :
    (∀ total mw mp n ps : Nat, 1 ≤ mw → 1 ≤ mp → mp < total →
      computePlan total mw mp = (n, ps) →
      n = min mw (total / mp)
      ∧ (mkRanges total ps n).length = n
      ∧ (∀ r, (mkRanges total ps n).get? 0 = some r → r.1 = 0)
      ∧ (∀ j r, j + 1 < n → (mkRanges total ps n).get? j = some r → rangeLen r = ps)
      ∧ (∀ j r r2, j + 1 < n → (mkRanges total ps n).get? j = some r →
          (mkRanges total ps n).get? (j + 1) = some r2 → r.2 + 1 = r2.1)
      ∧ (∀ r, (mkRanges total ps n).get? (n - 1) = some r →
          r.2 = total - 1 ∧ rangeLen r = total - (n - 1) * ps))
    ∧ computePlan 100000000 16 10000000 = (10, 10000000)
    ∧ (mkRanges 100000000 10000000 10).map rangeLen = List.replicate 10 10000000
    ∧ (mkRanges 100000000 10000000 10).get? 0 = some (0, 9999999)
    ∧ (mkRanges 100000000 10000000 10).get? 9 = some (90000000, 99999999) := by
  refine ⟨?_, by decide, by decide, by decide, by decide⟩
  intro total mw mp n ps hmw hmp hlt hplan
  obtain ⟨hmin, hn1, hps1, hnps⟩ := computePlan_facts total mw mp hmw hmp hlt
  rw [hplan] at hmin hn1 hps1 hnps
  dsimp only at hmin hn1 hps1 hnps
  refine ⟨hmin, by simp [mkRanges], ?_, ?_, ?_, ?_⟩
  · intro r hr
    rw [mkRanges_get total ps n 0 (by omega)] at hr
    cases hr
    simp
  · intro j r hj hr
    rw [mkRanges_get total ps n j (by omega)] at hr
    have hne : ¬(j = n - 1) := by omega
    rw [if_neg hne] at hr
    cases hr
    show j * ps + ps - 1 - j * ps + 1 = ps
    have h1 : 1 ≤ ps := hps1
    generalize j * ps = a
    omega
  · intro j r r2 hj hr hr2
    rw [mkRanges_get total ps n j (by omega)] at hr
    rw [mkRanges_get total ps n (j + 1) (by omega)] at hr2
    have hne : ¬(j = n - 1) := by omega
    rw [if_neg hne] at hr
    cases hr
    cases hr2
    show j * ps + ps - 1 + 1 = (j + 1) * ps
    rw [Nat.succ_mul]
    have h1 : 1 ≤ ps := hps1
    generalize j * ps = a
    omega
  · intro r hr
    rw [mkRanges_get total ps n (n - 1) (by omega)] at hr
    rw [if_pos rfl] at hr
    cases hr
    refine ⟨rfl, ?_⟩
    show total - 1 - ((n - 1) * ps) + 1 = total - (n - 1) * ps
    obtain ⟨m, rfl⟩ : ∃ m, n = m + 1 := ⟨n - 1, by omega⟩
    have hsm : (m + 1) * ps = m * ps + ps := Nat.succ_mul m ps
    rw [hsm] at hnps
    simp only [Nat.add_sub_cancel]
    have h1 : 1 ≤ ps := hps1
    generalize hq : m * ps = q
    rw [hq] at hnps
    omega

/-- C3 witness: the general range facts instantiated on the concrete
100 MB / 10 MB / 16-worker plan. -/
theorem c3_parallel_ranges_witness :
    (computePlan 100000000 16 10000000).1 = min 16 (100000000 / 10000000) ∧
    (mkRanges 100000000 10000000 10).length = 10 := by
  have h := c3_parallel_ranges.1 100000000 16 10000000 10 10000000
    (by decide) (by decide) (by decide) (by decide)
  exact ⟨by rw [c3_parallel_ranges.2.1]; exact h.1, h.2.1⟩

/-- C8: a release-asset path (`user/repo/releases/download/tag/file`) is
classified as `release_file` with the exact input URL as download URL (no
rewrite); a `blob` path is classified as `repo_file` with the download URL
synthesized from the raw-content template.  Classification is pure string
decomposition (`parse_github_url` is a plain function of the URL string). -/
theorem c8_github_url_classification :
    (∀ (url : String) (user repo tag fname : List Char),
      (parseGitHubParts url
          [user, repo, "releases".toList, "download".toList, tag, fname]).type = "release_file"
      ∧ (parseGitHubParts url
          [user, repo, "releases".toList, "download".toList, tag, fname]).download_url = some url)
    ∧ (∀ (url : String) (user repo branch p0 : List Char) (ps : List (List Char)),
        (parseGitHubParts url ([user, repo, "blob".toList, branch, p0] ++ ps)).type = "repo_file"
        ∧ (parseGitHubParts url ([user, repo, "blob".toList, branch, p0] ++ ps)).download_url
            = some ⟨"https://raw.githubusercontent.com/".toList ++
                user ++ '/' :: repo ++ '/' :: branch ++ '/' :: joinSlash (p0 :: ps)⟩)
    ∧ (parse_github_url "https://github.com/user/repo/releases/download/v1.0/model.bin").type
        = "release_file"
    ∧ (parse_github_url "https://github.com/user/repo/releases/download/v1.0/model.bin").download_url
        = some "https://github.com/user/repo/releases/download/v1.0/model.bin"
    ∧ (parse_github_url "https://github.com/user/repo/blob/main/path/file.txt").type = "repo_file"
    ∧ (parse_github_url "https://github.com/user/repo/blob/main/path/file.txt").download_url
        = some "https://raw.githubusercontent.com/user/repo/main/path/file.txt" := by
  refine ⟨?_, ?_, by decide, by decide, by decide, by decide⟩
  · intro url user repo tag fname
    unfold parseGitHubParts
    rw [if_pos (by simp), if_pos (by refine ⟨by simp, rfl, rfl⟩)]
    exact ⟨rfl, rfl⟩
  · intro url user repo branch p0 ps
    unfold parseGitHubParts
    have hrel : ¬(5 ≤ ([user, repo, "blob".toList, branch, p0] ++ ps).length ∧
        pyIx ([user, repo, "blob".toList, branch, p0] ++ ps) 2 = "releases".toList ∧
        pyIx ([user, repo, "blob".toList, branch, p0] ++ ps) 3 = "download".toList) := by
      rintro ⟨-, h, -⟩
      rw [show pyIx ([user, repo, "blob".toList, branch, p0] ++ ps) 2
          = "blob".toList from rfl] at h
      exact absurd h (by decide)
    have hblob : 5 ≤ ([user, repo, "blob".toList, branch, p0] ++ ps).length ∧
        pyIx ([user, repo, "blob".toList, branch, p0] ++ ps) 2 = "blob".toList := by
      refine ⟨?_, rfl⟩
      simp only [List.length_append, List.length_cons, List.length_nil]
      omega
    rw [if_pos (by simp), if_neg hrel, if_pos hblob]
    exact ⟨rfl, rfl⟩

/-- C10: any `github.com` path with at least two segments that is neither a
release-asset link nor a `blob` link is classified as a whole repository,
and the synthesized archive URL hardcodes the branch name `main`
(`.../archive/refs/heads/main.zip`), whatever the repository's real default
branch is. -/
theorem c10_repository_fallback :
    (∀ (url : String) (parts : List (List Char)) (user repo : List Char)
        (rest : List (List Char)),
      parts = user :: repo :: rest →
      ¬(5 ≤ parts.length ∧ pyIx parts 2 = "releases".toList ∧
          pyIx parts 3 = "download".toList) →
      ¬(5 ≤ parts.length ∧ pyIx parts 2 = "blob".toList) →
      (parseGitHubParts url parts).type = "repository"
      ∧ (parseGitHubParts url parts).download_url =
          some ⟨"https://github.com/".toList ++ user ++ '/' :: repo ++
            "/archive/refs/heads/main.zip".toList⟩)
    ∧ (parse_github_url "https://github.com/tuyenhm68/ComfyUI-HMT-Suite").type = "repository"
    ∧ (parse_github_url "https://github.com/tuyenhm68/ComfyUI-HMT-Suite").download_url
        = some "https://github.com/tuyenhm68/ComfyUI-HMT-Suite/archive/refs/heads/main.zip"
    ∧ (parse_github_url "https://github.com/user/repo/tree/dev").download_url
        = some "https://github.com/user/repo/archive/refs/heads/main.zip" := by
  refine ⟨?_, by decide, by decide, by decide⟩
  intro url parts user repo rest hparts h1 h2
  subst hparts
  unfold parseGitHubParts
  rw [if_pos (by simp), if_neg h1, if_neg h2]
  exact ⟨rfl, rfl⟩

/-- C10 witness: the fallback applied to a two-segment path. -/
theorem c10_repository_fallback_witness :
    (parseGitHubParts "https://github.com/a/b" [['a'], ['b']]).type = "repository" :=
  (c10_repository_fallback.1 "https://github.com/a/b" [['a'], ['b']] ['a'] ['b'] []
    rfl (by decide) (by decide)).1

/-- C7: the percentage is computed as floor(downloaded / total × 100)
whenever the total is known, is left unchanged (hence 0 from the initial
state) while the total is 0, is non-decreasing under every byte-delta
update, and equals exactly 100 whenever `download` returns success. -/
theorem c7_progress_monotone :
    (∀ (p : DownloadProgress) (d : Nat), 0 < p.total_size →
      (p.update d).percentage = (p.downloaded + d) * 100 / p.total_size)
    ∧ (∀ (p : DownloadProgress) (d : Nat), p.total_size = 0 →
        (p.update d).percentage = p.percentage)
    ∧ (∀ (p : DownloadProgress) (d : Nat),
        p.percentage ≤ p.downloaded * 100 / p.total_size → 0 < p.total_size →
        p.percentage ≤ (p.update d).percentage)
    ∧ (∀ (w : World) (o : Bool) (mw mp : Nat),
        (download w o mw mp).1.success = true →
        (download w o mw mp).1.progress.percentage = 100) := by
  refine ⟨?_, ?_, ?_, ?_⟩
  · intro p d h
    simp [DownloadProgress.update, h]
  · intro p d h
    simp [DownloadProgress.update, h]
  · intro p d hinv h
    have he : (p.update d).percentage = (p.downloaded + d) * 100 / p.total_size := by
      simp [DownloadProgress.update, h]
    rw [he]
    refine Nat.le_trans hinv (Nat.div_le_div_right ?_)
    exact Nat.mul_le_mul_right 100 (Nat.le_add_right _ _)
  · intro w o mw mp hs
    by_cases hfe : w.fileExists = true ∧ o = false
    · obtain ⟨hf1, rfl⟩ := hfe
      rw [download_skip w mw mp hf1]
    · have h1 : w.fileExists = true → o = true := by
        intro hh
        rcases Bool.eq_false_or_eq_true o with ho | ho
        · exact ho
        · exact absurd ⟨hh, ho⟩ hfe
      rcases Nat.eq_zero_or_pos w.contentLength with htot | htot
      · rw [download_single_zero w o mw mp h1 htot, singlePhase_result] at hs ⊢
        split_ifs at hs ⊢ <;> simp_all
      · cases h2 : check_disk_space w.diskFree w.contentLength
        · rw [download_nospace w o mw mp h1 htot h2, finishError_result] at hs
          simp at hs
        · cases hd : decideStrategy w.acceptRanges w.contentLength mp
          · rw [download_single_pos w o mw mp h1 htot h2 hd, singlePhase_result] at hs ⊢
            split_ifs at hs ⊢ <;> simp_all
          · rw [download_par w o mw mp h1 h2 hd, parallelPhase_result] at hs ⊢
            dsimp only at hs ⊢
            split_ifs at hs ⊢ <;> simp_all

/-- C7 witness: the formula, the monotone step, and the final 100 on a
concrete successful parallel transfer. -/
theorem c7_progress_monotone_witness :
    ((⟨100, 50, 50, "downloading"⟩ : DownloadProgress).update 25).percentage = 75 ∧
    50 ≤ ((⟨100, 50, 50, "downloading"⟩ : DownloadProgress).update 25).percentage ∧
    (download wPar false 16 30).1.progress.percentage = 100 := by
  refine ⟨?_, ?_, ?_⟩
  · have h := c7_progress_monotone.1 ⟨100, 50, 50, "downloading"⟩ 25 (by decide)
    simpa using h
  · exact c7_progress_monotone.2.2.1 ⟨100, 50, 50, "downloading"⟩ 25 (by decide) (by decide)
  · exact c7_progress_monotone.2.2.2 wPar false 16 30 (by decide)

/-- C1 (amended): when the destination file exists and overwrite is false,
`download` returns a no-op success whose progress reports the existing
file's size as both total and downloaded with percentage 100, the
filesystem is untouched, and the trace contains only the initial metadata
probe — the existence check runs after filename resolution (which needs the
probe's `Content-Disposition`) and before the download stream, but not
before the metadata probe. -/
theorem c1_existing_file_short_circuit :
    ∀ (w : World) (mw mp : Nat), w.fileExists = true →
      (download w false mw mp).1.success = true
      ∧ (download w false mw mp).1.skipped = true
      ∧ (download w false mw mp).1.progress.total_size = w.existingSize
      ∧ (download w false mw mp).1.progress.downloaded = w.existingSize
      ∧ (download w false mw mp).1.progress.percentage = 100
      ∧ (download w false mw mp).2.2 = [Ev.probe]
      ∧ (download w false mw mp).2.1 = initFS w := by
  intro w mw mp h
  rw [download_skip w mw mp h]
  exact ⟨rfl, rfl, rfl, rfl, rfl, rfl, rfl⟩

/-- C1 witness. -/
theorem c1_existing_file_short_circuit_witness :
    (download wExist false 16 10485760).1.success = true ∧
    (download wExist false 16 10485760).2.2 = [Ev.probe] :=
  ⟨(c1_existing_file_short_circuit wExist 16 10485760 rfl).1,
   (c1_existing_file_short_circuit wExist 16 10485760 rfl).2.2.2.2.2.1⟩

/-- C1 counterexample: the claim says no network request occurs for a
pre-existing destination with overwrite off, the existence check coming
before any metadata probe; in the code the metadata probe (primary HEAD
request) is issued first, so the trace contains a network request. -/
theorem c1_probe_before_existence_check_cex :
    wExist.fileExists = true ∧
    Ev.probe ∈ (download wExist false 16 10485760).2.2 :=
  ⟨rfl, by decide⟩

/-- C9: with a known total size the disk preflight compares the free space
against the total inflated by the 10% buffer; an insufficient result fails
the transfer with an error carrying both the required and available
magnitudes while the filesystem is still untouched; a failed stat makes the
check pass (optimistic); an unknown total (0) skips the preflight
entirely. -/
theorem c9_disk_preflight :
    (∀ free req : Nat, check_disk_space (some free) req = true ↔ req * 11 / 10 ≤ free)
    ∧ (∀ req : Nat, check_disk_space none req = true)
    ∧ (∀ (w : World) (o : Bool) (mw mp avail : Nat),
        (w.fileExists = true → o = true) →
        w.diskFree = some avail →
        0 < w.contentLength →
        check_disk_space w.diskFree w.contentLength = false →
        (download w o mw mp).1.success = false
        ∧ (download w o mw mp).1.error
            = some (ErrMsg.insufficientSpace w.contentLength avail)
        ∧ (download w o mw mp).2.1 = initFS w)
    ∧ (∀ (w : World) (o : Bool) (mw mp : Nat), w.contentLength = 0 →
        Ev.diskCheck ∉ (download w o mw mp).2.2) := by
  refine ⟨?_, ?_, ?_, ?_⟩
  · intro free req
    simp [check_disk_space]
  · intro req
    rfl
  · intro w o mw mp avail h1 hfree htot h2
    rw [download_nospace w o mw mp h1 htot h2]
    refine ⟨by rw [finishError_result], ?_, ?_⟩
    · rw [finishError_result]
      simp [hfree]
    · unfold finishError
      rw [show (initFS w).tmpOut = none from rfl]
  · intro w o mw mp htot
    by_cases hfe : w.fileExists = true ∧ o = false
    · obtain ⟨hf1, rfl⟩ := hfe
      rw [download_skip w mw mp hf1]
      simp
    · have h1 : w.fileExists = true → o = true := by
        intro hh
        rcases Bool.eq_false_or_eq_true o with ho | ho
        · exact ho
        · exact absurd ⟨hh, ho⟩ hfe
      rw [download_single_zero w o mw mp h1 htot]
      intro hmem
      rcases singlePhase_mem hmem with hx | hx | hx | hx | hx | hx | hx
      · revert hx; cases hho : w.headOk <;> simp
      all_goals simp at hx

/-- C9 witness: insufficient space on a concrete transfer (110 bytes
required with the buffer, 10 available), and the optimistic pass when the
stat fails. -/
theorem c9_disk_preflight_witness :
    (download wNoSpace false 16 30).1.error = some (ErrMsg.insufficientSpace 100 10) ∧
    check_disk_space none 12345 = true ∧
    (110 ≤ 120 → check_disk_space (some 120) 100 = true) := by
  refine ⟨?_, c9_disk_preflight.2.1 12345, ?_⟩
  · exact (c9_disk_preflight.2.2.1 wNoSpace false 16 30 10 (by decide) rfl (by decide)
      (by decide)).2.1
  · intro h
    exact (c9_disk_preflight.1 120 100).2 h

/-- C4: a chunk task makes at most 3 attempts (`max_retries = 3`); a
permanently failed task made exactly the 3 failed attempts, separated by
backoff sleeps of 2 then 4 seconds (`retry_delay * (attempt + 1)`, doubling
across the observed retries) before reporting failure; and whenever any
chunk fails permanently on a reached parallel transfer, the whole transfer
returns failure and no merge event ever appears in the trace. -/
theorem c4_retry_and_abort :
    (∀ (w : World) (i : Nat), (downloadPart w i).1 = false →
      (downloadPart w i).2.1 =
        [Ev.partReq i 0, Ev.sleepEv 2, Ev.partReq i 1, Ev.sleepEv 4, Ev.partReq i 2]
      ∧ w.partOutcome i 0 = false ∧ w.partOutcome i 1 = false ∧ w.partOutcome i 2 = false)
    ∧ (∀ (w : World) (i : Nat), (downloadPart w i).1 = true →
        ∃ k, k < 3 ∧ w.partOutcome i k = true)
    ∧ (∀ (w : World) (o : Bool) (mw mp : Nat),
        (w.fileExists = true → o = true) →
        check_disk_space w.diskFree w.contentLength = true →
        decideStrategy w.acceptRanges w.contentLength mp = true →
        (runParts w (computePlan w.contentLength mw mp).1).1 = false →
        (download w o mw mp).1.success = false
        ∧ (download w o mw mp).1.error = some ErrMsg.partsFailed
        ∧ Ev.mergeEv ∉ (download w o mw mp).2.2) := by
  refine ⟨?_, ?_, ?_⟩
  · intro w i h
    cases h0 : w.partOutcome i 0 <;> cases h1 : w.partOutcome i 1 <;>
      cases h2 : w.partOutcome i 2 <;> simp_all [downloadPart, runPart]
  · intro w i h
    cases h0 : w.partOutcome i 0
    · cases h1 : w.partOutcome i 1
      · cases h2 : w.partOutcome i 2
        · simp [downloadPart, runPart, h0, h1, h2] at h
        · exact ⟨2, by omega, h2⟩
      · exact ⟨1, by omega, h1⟩
    · exact ⟨0, by omega, h0⟩
  · intro w o mw mp h1 h2 h3 hf
    rw [download_par w o mw mp h1 h2 h3]
    refine ⟨?_, ?_, ?_⟩
    · rw [parallelPhase_result]
      dsimp only
      rw [if_neg (by simp [hf])]
    · rw [parallelPhase_result]
      dsimp only
      rw [if_neg (by simp [hf])]
    · intro hmem
      unfold parallelPhase at hmem
      dsimp only at hmem
      rw [if_neg (by simp [hf])] at hmem
      rcases cleanup_err_mem hmem with hx | hx | hx
      · rcases List.mem_append.1 hx with hx | hx
        · revert hx; cases hho : w.headOk <;> simp
        · have hw := runParts_mem hx
          simp [isWorkerEv] at hw
      · simp at hx
      · simp at hx

/-- C4 witness: the failing chunk 1 of `wParFail` makes 3 attempts with
delays 2 and 4, and the whole transfer aborts without a merge. -/
theorem c4_retry_and_abort_witness :
    (downloadPart wParFail 1).2.1 =
      [Ev.partReq 1 0, Ev.sleepEv 2, Ev.partReq 1 1, Ev.sleepEv 4, Ev.partReq 1 2] ∧
    (download wParFail false 16 30).1.error = some ErrMsg.partsFailed := by
  constructor
  · exact (c4_retry_and_abort.1 wParFail 1 (by decide)).1
  · exact (c4_retry_and_abort.2.2 wParFail false 16 30 (by decide) (by decide)
      (by decide) (by decide)).2.1

theorem finishError_evs_of_none {fs : FS} {p : DownloadProgress} {evs : List Ev}
    {e : ErrMsg} (hfs : fs.tmpOut = none) : (finishError fs p evs e).2.2 = evs := by
  unfold finishError
  rw [hfs]

theorem mem_probe_evs {w : World} {x : Ev}
    (h : x ∈ (if w.headOk then [Ev.probe] else [Ev.probe, Ev.getStream])) :
    x = Ev.probe ∨ x = Ev.getStream := by
  cases hho : w.headOk <;> rw [hho] at h <;> simp at h <;> tauto

theorem mem_probe_disk_evs {w : World} {x : Ev}
    (h : x ∈ (if w.headOk then [Ev.probe] else [Ev.probe, Ev.getStream]) ++ [Ev.diskCheck]) :
    x = Ev.probe ∨ x = Ev.getStream ∨ x = Ev.diskCheck := by
  rcases List.mem_append.1 h with h | h
  · rcases mem_probe_evs h with h | h <;> tauto
  · simp at h
    tauto

/-- A merge event can appear in a parallel-phase trace only when every part
task succeeded and the per-part verification passed. -/
theorem parallelPhase_merge_gate {w : World} {fs : FS} {p : DownloadProgress}
    {evs : List Ev} {total mw mp : Nat}
    (hfs : fs.tmpOut = none) (hnm : Ev.mergeEv ∉ evs)
    (hmem : Ev.mergeEv ∈ (parallelPhase w fs p evs total mw mp).2.2) :
    (runParts w (computePlan total mw mp).1).1 = true
    ∧ (verifyAux w 0 (mkRanges total (computePlan total mw mp).2
        (computePlan total mw mp).1)).1 = true := by
  by_cases hr : (runParts w (computePlan total mw mp).1).1 = true
  · by_cases hv : (verifyAux w 0 (mkRanges total (computePlan total mw mp).2
        (computePlan total mw mp).1)).1 = true
    · exact ⟨hr, hv⟩
    · exfalso
      unfold parallelPhase at hmem
      dsimp only at hmem
      rw [if_pos hr, if_neg hv] at hmem
      rw [finishError_evs_of_none (by rw [cleanupDir_tmpOut]; exact hfs)] at hmem
      rcases cleanupDir_mem hmem with hx | hx
      · rcases List.mem_append.1 hx with hx | hx
        · rcases List.mem_append.1 hx with hx | hx
          · exact hnm hx
          · have hw := runParts_mem hx
            simp [isWorkerEv] at hw
        · have hw := verifyAux_mem hx
          simp [isVerifyEv] at hw
      · simp at hx
  · exfalso
    unfold parallelPhase at hmem
    dsimp only at hmem
    rw [if_neg hr] at hmem
    rw [finishError_evs_of_none (by rw [cleanupDir_tmpOut]; exact hfs)] at hmem
    rcases cleanupDir_mem hmem with hx | hx
    · rcases List.mem_append.1 hx with hx | hx
      · exact hnm hx
      · have hw := runParts_mem hx
        simp [isWorkerEv] at hw
    · simp at hx

/-- A rename event can appear in a parallel-phase trace only when all part
tasks succeeded, the per-part verification passed, and the merged size
matched the declared total. -/
theorem parallelPhase_rename_gate {w : World} {fs : FS} {p : DownloadProgress}
    {evs : List Ev} {total mw mp : Nat}
    (hfs : fs.tmpOut = none) (hnr : Ev.renameEv ∉ evs)
    (hmem : Ev.renameEv ∈ (parallelPhase w fs p evs total mw mp).2.2) :
    (runParts w (computePlan total mw mp).1).1 = true
    ∧ (verifyAux w 0 (mkRanges total (computePlan total mw mp).2
        (computePlan total mw mp).1)).1 = true
    ∧ mergedBytes w (computePlan total mw mp).1 = total := by
  by_cases hr : (runParts w (computePlan total mw mp).1).1 = true
  · by_cases hv : (verifyAux w 0 (mkRanges total (computePlan total mw mp).2
        (computePlan total mw mp).1)).1 = true
    · by_cases hm : mergedBytes w (computePlan total mw mp).1 = total
      · exact ⟨hr, hv, hm⟩
      · exfalso
        unfold parallelPhase at hmem
        dsimp only at hmem
        rw [if_pos hr, if_pos hv, if_neg hm] at hmem
        rw [finishError_evs_of_none (by rw [cleanupDir_tmpOut])] at hmem
        rcases cleanupDir_mem hmem with hx | hx
        · rcases List.mem_append.1 hx with hx | hx
          · rcases List.mem_append.1 hx with hx | hx
            · rcases List.mem_append.1 hx with hx | hx
              · rcases List.mem_append.1 hx with hx | hx
                · exact hnr hx
                · have hw := runParts_mem hx
                  simp [isWorkerEv] at hw
              · have hw := verifyAux_mem hx
                simp [isVerifyEv] at hw
            · simp at hx
          · simp at hx
        · simp at hx
    · exfalso
      unfold parallelPhase at hmem
      dsimp only at hmem
      rw [if_pos hr, if_neg hv] at hmem
      rw [finishError_evs_of_none (by rw [cleanupDir_tmpOut]; exact hfs)] at hmem
      rcases cleanupDir_mem hmem with hx | hx
      · rcases List.mem_append.1 hx with hx | hx
        · rcases List.mem_append.1 hx with hx | hx
          · exact hnr hx
          · have hw := runParts_mem hx
            simp [isWorkerEv] at hw
        · have hw := verifyAux_mem hx
          simp [isVerifyEv] at hw
      · simp at hx
  · exfalso
    unfold parallelPhase at hmem
    dsimp only at hmem
    rw [if_neg hr] at hmem
    rw [finishError_evs_of_none (by rw [cleanupDir_tmpOut]; exact hfs)] at hmem
    rcases cleanupDir_mem hmem with hx | hx
    · rcases List.mem_append.1 hx with hx | hx
      · exact hnr hx
      · have hw := runParts_mem hx
        simp [isWorkerEv] at hw
    · simp at hx

/-- C5: the in-order part verification accepts exactly when every part file
has its declared range length (zero tolerance); on a reached parallel
transfer a merge happens only after that verification passed, and the
rename into the destination happens only after both the part verification
and the merged-size check passed; a part-size mismatch aborts the transfer
before any merge; on the single-stream path with known size, a size
mismatch deletes the staging file and aborts before any rename, and with
unknown size the final size check is skipped entirely. -/
theorem c5_integrity_checks :
    (∀ (w : World) (l : List (Nat × Nat)),
      (verifyAux w 0 l).1 = true ↔ ∀ j r, l.get? j = some r → w.partBytes j = rangeLen r)
    ∧ (∀ (w : World) (o : Bool) (mw mp : Nat),
        (w.fileExists = true → o = true) →
        check_disk_space w.diskFree w.contentLength = true →
        decideStrategy w.acceptRanges w.contentLength mp = true →
        (Ev.mergeEv ∈ (download w o mw mp).2.2 →
          (verifyAux w 0 (mkRanges w.contentLength (computePlan w.contentLength mw mp).2
            (computePlan w.contentLength mw mp).1)).1 = true)
        ∧ (Ev.renameEv ∈ (download w o mw mp).2.2 →
            (verifyAux w 0 (mkRanges w.contentLength (computePlan w.contentLength mw mp).2
              (computePlan w.contentLength mw mp).1)).1 = true
            ∧ mergedBytes w (computePlan w.contentLength mw mp).1 = w.contentLength)
        ∧ ((runParts w (computePlan w.contentLength mw mp).1).1 = true →
            (verifyAux w 0 (mkRanges w.contentLength (computePlan w.contentLength mw mp).2
              (computePlan w.contentLength mw mp).1)).1 = false →
            (download w o mw mp).1.success = false
            ∧ (download w o mw mp).1.error = some ErrMsg.partVerifyFailed
            ∧ Ev.mergeEv ∉ (download w o mw mp).2.2))
    ∧ (∀ (w : World) (o : Bool) (mw mp : Nat),
        (w.fileExists = true → o = true) →
        check_disk_space w.diskFree w.contentLength = true →
        decideStrategy w.acceptRanges w.contentLength mp = false →
        0 < w.contentLength → w.singleOk = true →
        w.singleBytes ≠ w.contentLength →
        (download w o mw mp).1.success = false
        ∧ (download w o mw mp).1.error = some (ErrMsg.sizeMismatch w.contentLength)
        ∧ Ev.unlinkTmpOut ∈ (download w o mw mp).2.2
        ∧ Ev.renameEv ∉ (download w o mw mp).2.2)
    ∧ (∀ (w : World) (o : Bool) (mw mp : Nat),
        (w.fileExists = true → o = true) →
        w.contentLength = 0 →
        Ev.verifyFinal ∉ (download w o mw mp).2.2) := by
  refine ⟨?_, ?_, ?_, ?_⟩
  · intro w l
    have h := verifyAux_true_iff w l 0
    simpa using h
  · intro w o mw mp h1 h2 h3
    rw [download_par w o mw mp h1 h2 h3]
    have hfs : (initFS w).tmpOut = none := rfl
    have hnm : Ev.mergeEv ∉
        (if w.headOk then [Ev.probe] else [Ev.probe, Ev.getStream]) ++ [Ev.diskCheck] := by
      intro hx
      rcases mem_probe_disk_evs hx with hx | hx | hx <;> simp at hx
    have hnr : Ev.renameEv ∉
        (if w.headOk then [Ev.probe] else [Ev.probe, Ev.getStream]) ++ [Ev.diskCheck] := by
      intro hx
      rcases mem_probe_disk_evs hx with hx | hx | hx <;> simp at hx
    refine ⟨?_, ?_, ?_⟩
    · intro hmem
      exact (parallelPhase_merge_gate hfs hnm hmem).2
    · intro hmem
      exact (parallelPhase_rename_gate hfs hnr hmem).2
    · intro hr hv
      refine ⟨?_, ?_, ?_⟩
      · rw [parallelPhase_result]
        dsimp only
        rw [if_pos hr, if_neg (by simp [hv])]
      · rw [parallelPhase_result]
        dsimp only
        rw [if_pos hr, if_neg (by simp [hv])]
      · intro hmem
        have hgate := (parallelPhase_merge_gate hfs hnm hmem).2
        rw [hv] at hgate
        exact absurd hgate (by simp)
  · intro w o mw mp h1 h2 hd htot hok hne
    rw [download_single_pos w o mw mp h1 htot h2 hd]
    refine ⟨?_, ?_, ?_, ?_⟩
    · rw [singlePhase_result]
      rw [if_pos hok, if_pos htot, if_neg hne]
    · rw [singlePhase_result]
      rw [if_pos hok, if_pos htot, if_neg hne]
    · unfold singlePhase
      dsimp only
      rw [if_pos hok, if_pos htot, if_neg hne]
      rw [finishError_evs_of_none rfl]
      simp
    · intro hmem
      unfold singlePhase at hmem
      dsimp only at hmem
      rw [if_pos hok, if_pos htot, if_neg hne] at hmem
      rw [finishError_evs_of_none rfl] at hmem
      rcases List.mem_append.1 hmem with hx | hx
      · rcases List.mem_append.1 hx with hx | hx
        · rcases List.mem_append.1 hx with hx | hx
          · rcases mem_probe_disk_evs hx with hx | hx | hx <;> simp at hx
          · simp at hx
        · simp at hx
      · simp at hx
  · intro w o mw mp h1 htot
    rw [download_single_zero w o mw mp h1 htot]
    intro hmem
    unfold singlePhase at hmem
    dsimp only at hmem
    cases hok : w.singleOk
    · rw [hok] at hmem
      simp only [Bool.false_eq_true, if_false] at hmem
      rcases finishError_mem hmem with hx | hx
      · rcases List.mem_append.1 hx with hx | hx
        · rcases mem_probe_evs hx with hx | hx <;> simp at hx
        · simp at hx
      · simp at hx
    · rw [hok] at hmem
      simp only [if_true] at hmem
      rw [if_neg (show ¬(0 < w.contentLength) by omega)] at hmem
      rcases installPhase_mem hmem with hx | hx | hx | hx | hx
      · rcases List.mem_append.1 hx with hx | hx
        · rcases mem_probe_evs hx with hx | hx <;> simp at hx
        · simp at hx
      all_goals simp at hx

/-- C5 witness: the verification accepting a concrete correct plan, a
single-stream size mismatch aborting with the staging file deleted, and an
unknown-size transfer skipping the final size check. -/
theorem c5_integrity_checks_witness :
    (verifyAux wPar 0 (mkRanges wPar.contentLength (computePlan wPar.contentLength 16 30).2
        (computePlan wPar.contentLength 16 30).1)).1 = true ∧
    (download wSingleBad false 16 30).1.error = some (ErrMsg.sizeMismatch 100) ∧
    Ev.verifyFinal ∉ (download wUnknown false 16 30).2.2 := by
  refine ⟨?_, ?_, ?_⟩
  · exact ((c5_integrity_checks.2.1 wPar false 16 30 (by decide) (by decide) (by decide)).1
      (by decide))
  · exact (c5_integrity_checks.2.2.1 wSingleBad false 16 30 (by decide) (by decide)
      (by decide) (by decide) (by decide) (by decide)).2.1
  · exact c5_integrity_checks.2.2.2 wUnknown false 16 30 (by decide) (by decide)

theorem runPart_congr {w1 w2 : World} (ho : w1.partOutcome = w2.partOutcome)
    (hb : w1.partBytes = w2.partBytes) (hfb : w1.partFailBytes = w2.partFailBytes)
    (i : Nat) : ∀ (f a : Nat), runPart w1 i a f = runPart w2 i a f := by
  intro f
  induction f with
  | zero => intro a; rfl
  | succ f ih =>
    intro a
    unfold runPart
    rw [ho, hb, hfb, ih (a + 1)]

theorem runParts_congr {w1 w2 : World} (ho : w1.partOutcome = w2.partOutcome)
    (hb : w1.partBytes = w2.partBytes) (hfb : w1.partFailBytes = w2.partFailBytes) :
    ∀ n : Nat, runParts w1 n = runParts w2 n := by
  intro n
  induction n with
  | zero => rfl
  | succ n ih =>
    unfold runParts downloadPart
    rw [ih, runPart_congr ho hb hfb n 3 0]

theorem cleanupDir_tempDir_true (w : World) (fs : FS) (evs : List Ev)
    (hfs : fs.tempDir = true) (hrm : w.rmtreeOk = true) :
    (cleanupDir w fs evs).1.tempDir = false := by
  unfold cleanupDir
  rw [if_pos hfs]
  dsimp only
  rw [if_pos hrm]

theorem verifyAux_congr {w1 w2 : World} (hb : w1.partBytes = w2.partBytes) :
    ∀ (l : List (Nat × Nat)) (k : Nat), verifyAux w1 k l = verifyAux w2 k l := by
  intro l
  induction l with
  | nil => intro k; rfl
  | cons r rest ih =>
    intro k
    unfold verifyAux
    rw [hb, ih (k + 1)]

theorem mergedBytes_congr {w1 w2 : World} (hb : w1.partBytes = w2.partBytes) :
    ∀ n : Nat, mergedBytes w1 n = mergedBytes w2 n := by
  intro n
  induction n with
  | zero => rfl
  | succ n ih =>
    unfold mergedBytes
    rw [hb, ih]

/-- Whenever the parallel branch does not reach the install step (any part
task failed permanently, the part verification failed, or the merged size
mismatched), it returns a failed result with some error message, leaves the
destination untouched, leaves no staging file, and removes the temp
directory whenever the `rmtree` succeeds. -/
theorem parallelPhase_fatal (w : World) (fs : FS) (p : DownloadProgress) (evs : List Ev)
    (total mw mp : Nat)
    (hni : ¬((runParts w (computePlan total mw mp).1).1 = true
        ∧ (verifyAux w 0 (mkRanges total (computePlan total mw mp).2
            (computePlan total mw mp).1)).1 = true
        ∧ mergedBytes w (computePlan total mw mp).1 = total)) :
    (parallelPhase w fs p evs total mw mp).1.success = false
    ∧ (parallelPhase w fs p evs total mw mp).1.error.isSome = true
    ∧ (parallelPhase w fs p evs total mw mp).2.1.dest = fs.dest
    ∧ (parallelPhase w fs p evs total mw mp).2.1.tmpOut = none
    ∧ (w.rmtreeOk = true → (parallelPhase w fs p evs total mw mp).2.1.tempDir = false) := by
  unfold parallelPhase
  dsimp only
  by_cases hr : (runParts w (computePlan total mw mp).1).1 = true
  · rw [if_pos hr]
    by_cases hv : (verifyAux w 0 (mkRanges total (computePlan total mw mp).2
        (computePlan total mw mp).1)).1 = true
    · rw [if_pos hv]
      have hm : ¬(mergedBytes w (computePlan total mw mp).1 = total) :=
        fun hm => hni ⟨hr, hv, hm⟩
      rw [if_neg hm]
      refine ⟨by rw [finishError_result], by rw [finishError_result]; rfl, ?_, ?_, ?_⟩
      · rw [finishError_dest, cleanupDir_dest]
      · rw [finishError_tmpOut]
      · intro hrm
        rw [finishError_tempDir]
        exact cleanupDir_tempDir_true w _ _ rfl hrm
    · rw [if_neg hv]
      refine ⟨by rw [finishError_result], by rw [finishError_result]; rfl, ?_, ?_, ?_⟩
      · rw [finishError_dest, cleanupDir_dest]
      · rw [finishError_tmpOut]
      · intro hrm
        rw [finishError_tempDir]
        exact cleanupDir_tempDir_true w _ _ rfl hrm
  · rw [if_neg hr]
    refine ⟨by rw [finishError_result], by rw [finishError_result]; rfl, ?_, ?_, ?_⟩
    · rw [finishError_dest, cleanupDir_dest]
    · rw [finishError_tmpOut]
    · intro hrm
      rw [finishError_tempDir]
      exact cleanupDir_tempDir_true w _ _ rfl hrm

/-- Whenever the single-stream branch does not reach the install step (the
stream raised, or the size check failed), it returns a failed result with
some error message, leaves the destination untouched, leaves no staging
file, and does not touch the temp-directory flag. -/
theorem singlePhase_fatal (w : World) (fs : FS) (p : DownloadProgress) (evs : List Ev)
    (total : Nat)
    (hni : ¬(w.singleOk = true ∧ (0 < total → w.singleBytes = total))) :
    (singlePhase w fs p evs total).1.success = false
    ∧ (singlePhase w fs p evs total).1.error.isSome = true
    ∧ (singlePhase w fs p evs total).2.1.dest = fs.dest
    ∧ (singlePhase w fs p evs total).2.1.tmpOut = none
    ∧ (singlePhase w fs p evs total).2.1.tempDir = fs.tempDir := by
  unfold singlePhase
  dsimp only
  by_cases hok : w.singleOk = true
  · rw [if_pos hok]
    by_cases htot : 0 < total
    · rw [if_pos htot]
      have hne : ¬(w.singleBytes = total) := fun he => hni ⟨hok, fun _ => he⟩
      rw [if_neg hne]
      exact ⟨by rw [finishError_result], by rw [finishError_result]; rfl,
        by rw [finishError_dest], by rw [finishError_tmpOut], by rw [finishError_tempDir]⟩
    · exact absurd ⟨hok, fun hc => absurd hc htot⟩ hni
  · rw [if_neg hok]
    exact ⟨by rw [finishError_result], by rw [finishError_result]; rfl,
      by rw [finishError_dest], by rw [finishError_tmpOut], by rw [finishError_tempDir]⟩

/-- The result record of `download` never depends on whether the
best-effort temp-directory `rmtree` succeeds: cleanup errors are swallowed
and change nothing in what the caller receives. -/
theorem download_rmtree_irrel (w : World) (o : Bool) (mw mp : Nat) :
    (download w o mw mp).1 = (download { w with rmtreeOk := false } o mw mp).1 := by
  by_cases hfe : w.fileExists = true ∧ o = false
  · obtain ⟨hf1, rfl⟩ := hfe
    rw [download_skip w mw mp hf1, download_skip { w with rmtreeOk := false } mw mp hf1]
  · have h1 : w.fileExists = true → o = true := by
      intro hh
      rcases Bool.eq_false_or_eq_true o with ho | ho
      · exact ho
      · exact absurd ⟨hh, ho⟩ hfe
    rcases Nat.eq_zero_or_pos w.contentLength with htot | htot
    · rw [download_single_zero w o mw mp h1 htot,
        download_single_zero { w with rmtreeOk := false } o mw mp h1 htot,
        singlePhase_result, singlePhase_result]
    · cases h2 : check_disk_space w.diskFree w.contentLength
      · rw [download_nospace w o mw mp h1 htot h2,
          download_nospace { w with rmtreeOk := false } o mw mp h1 htot h2,
          finishError_result, finishError_result]
      · cases hd : decideStrategy w.acceptRanges w.contentLength mp
        · rw [download_single_pos w o mw mp h1 htot h2 hd,
            download_single_pos { w with rmtreeOk := false } o mw mp h1 htot h2 hd,
            singlePhase_result, singlePhase_result]
        · rw [download_par w o mw mp h1 h2 hd,
            download_par { w with rmtreeOk := false } o mw mp h1 h2 hd,
            parallelPhase_result, parallelPhase_result]
          dsimp only
          rw [@runParts_congr { w with rmtreeOk := false } w rfl rfl rfl
              ((computePlan w.contentLength mw mp).1),
            @verifyAux_congr { w with rmtreeOk := false } w rfl
              (mkRanges w.contentLength (computePlan w.contentLength mw mp).2
                (computePlan w.contentLength mw mp).1) 0,
            @mergedBytes_congr { w with rmtreeOk := false } w rfl
              ((computePlan w.contentLength mw mp).1)]

/-- C6 (amended): whenever a chunk exhausts its retries or any other fatal
error strikes before the install step (a part-size verification failure, a
merged-size mismatch, a failed or short single stream), the final
destination file is neither created nor modified, the staging `.tmp` file
does not survive, the per-part temp directory is removed whenever the
cleanup `rmtree` succeeds, a failing cleanup changes nothing in the
returned result (cleanup errors never escalate past the cleanup step, on
any path), and the failure is surfaced as a returned result record with
success = false and a descriptive message rather than a raised exception.
The destination-preservation part does not extend to every fatal transfer
error: a rename failure while overwriting leaves the old destination
already deleted (see the counterexample). -/
theorem c6_fatal_error_cleanup :
    (∀ (w : World) (o : Bool) (mw mp : Nat),
      (w.fileExists = true → o = true) →
      check_disk_space w.diskFree w.contentLength = true →
      decideStrategy w.acceptRanges w.contentLength mp = true →
      ¬((runParts w (computePlan w.contentLength mw mp).1).1 = true
        ∧ (verifyAux w 0 (mkRanges w.contentLength (computePlan w.contentLength mw mp).2
            (computePlan w.contentLength mw mp).1)).1 = true
        ∧ mergedBytes w (computePlan w.contentLength mw mp).1 = w.contentLength) →
      (download w o mw mp).1.success = false
      ∧ (download w o mw mp).1.error.isSome = true
      ∧ (download w o mw mp).2.1.dest = (initFS w).dest
      ∧ (download w o mw mp).2.1.tmpOut = none
      ∧ (w.rmtreeOk = true → (download w o mw mp).2.1.tempDir = false)
      ∧ ((runParts w (computePlan w.contentLength mw mp).1).1 = false →
          (download w o mw mp).1.error = some ErrMsg.partsFailed))
    ∧ (∀ (w : World) (o : Bool) (mw mp : Nat),
        (w.fileExists = true → o = true) →
        check_disk_space w.diskFree w.contentLength = true →
        decideStrategy w.acceptRanges w.contentLength mp = false →
        0 < w.contentLength →
        ¬(w.singleOk = true ∧ w.singleBytes = w.contentLength) →
        (download w o mw mp).1.success = false
        ∧ (download w o mw mp).1.error.isSome = true
        ∧ (download w o mw mp).2.1.dest = (initFS w).dest
        ∧ (download w o mw mp).2.1.tmpOut = none
        ∧ (download w o mw mp).2.1.tempDir = false)
    ∧ (∀ (w : World) (o : Bool) (mw mp : Nat),
        (w.fileExists = true → o = true) →
        w.contentLength = 0 → w.singleOk = false →
        (download w o mw mp).1.success = false
        ∧ (download w o mw mp).1.error = some ErrMsg.streamFailed
        ∧ (download w o mw mp).2.1.dest = (initFS w).dest
        ∧ (download w o mw mp).2.1.tmpOut = none
        ∧ (download w o mw mp).2.1.tempDir = false)
    ∧ (∀ (w : World) (o : Bool) (mw mp : Nat),
        (download w o mw mp).1 = (download { w with rmtreeOk := false } o mw mp).1) := by
  refine ⟨?_, ?_, ?_, ?_⟩
  · intro w o mw mp h1 h2 h3 hni
    rw [download_par w o mw mp h1 h2 h3]
    have hp := parallelPhase_fatal w (initFS w)
      ⟨w.contentLength, 0, 0, "downloading"⟩
      ((if w.headOk then [Ev.probe] else [Ev.probe, Ev.getStream]) ++ [Ev.diskCheck])
      w.contentLength mw mp hni
    refine ⟨hp.1, hp.2.1, hp.2.2.1, hp.2.2.2.1, hp.2.2.2.2, ?_⟩
    intro hrf
    rw [parallelPhase_result]
    dsimp only
    rw [if_neg (by simp [hrf])]
  · intro w o mw mp h1 h2 hd htot hni
    rw [download_single_pos w o mw mp h1 htot h2 hd]
    have hni2 : ¬(w.singleOk = true ∧ (0 < w.contentLength →
        w.singleBytes = w.contentLength)) := by
      rintro ⟨hok, himp⟩
      exact hni ⟨hok, himp htot⟩
    have hp := singlePhase_fatal w (initFS w)
      ⟨w.contentLength, 0, 0, "downloading"⟩
      ((if w.headOk then [Ev.probe] else [Ev.probe, Ev.getStream]) ++ [Ev.diskCheck])
      w.contentLength hni2
    exact ⟨hp.1, hp.2.1, hp.2.2.1, hp.2.2.2.1, by rw [hp.2.2.2.2]; rfl⟩
  · intro w o mw mp h1 htot hok
    rw [download_single_zero w o mw mp h1 htot]
    have hni : ¬(w.singleOk = true ∧ (0 < w.contentLength →
        w.singleBytes = w.contentLength)) := by
      rintro ⟨hk, -⟩
      rw [hok] at hk
      exact absurd hk (by simp)
    have hp := singlePhase_fatal w (initFS w)
      ⟨w.contentLength, 0, 0, "downloading"⟩
      (if w.headOk then [Ev.probe] else [Ev.probe, Ev.getStream])
      w.contentLength hni
    refine ⟨hp.1, ?_, hp.2.2.1, hp.2.2.2.1, by rw [hp.2.2.2.2]; rfl⟩
    rw [singlePhase_result]
    rw [if_neg (by simp [hok])]
  · intro w o mw mp
    exact download_rmtree_irrel w o mw mp

/-- C6 witness: a part-verification failure (`wParBad`), a single-stream
size mismatch (`wSingleBad`), an unknown-size stream failure
(`wUnknownFail`), chunk exhaustion (`wParFail`), and the cleanup
non-escalation, all at concrete inputs. -/
theorem c6_fatal_error_cleanup_witness :
    (download wParBad false 16 30).1.success = false ∧
    (download wParBad false 16 30).2.1.dest = none ∧
    (download wSingleBad false 16 30).2.1.tmpOut = none ∧
    (download wUnknownFail false 16 30).1.error = some ErrMsg.streamFailed ∧
    (download wParFail false 16 30).1.error = some ErrMsg.partsFailed ∧
    (download wParFail false 16 30).1
      = (download { wParFail with rmtreeOk := false } false 16 30).1 := by
  have hA := c6_fatal_error_cleanup.1 wParBad false 16 30 (by decide) (by decide)
    (by decide) (by decide)
  have hB := c6_fatal_error_cleanup.2.1 wSingleBad false 16 30 (by decide) (by decide)
    (by decide) (by decide) (by decide)
  have hC := c6_fatal_error_cleanup.2.2.1 wUnknownFail false 16 30 (by decide) (by decide)
    (by decide)
  have hD := c6_fatal_error_cleanup.1 wParFail false 16 30 (by decide) (by decide)
    (by decide) (by decide)
  exact ⟨hA.1, by rw [hA.2.2.1]; rfl, hB.2.2.2.1, hC.2.1,
    hD.2.2.2.2.2 (by decide), c6_fatal_error_cleanup.2.2.2 wParFail false 16 30⟩

/-- C6 counterexample: a rename failure is one of the claim's fatal
transfer errors, yet when it happens while overwriting an existing 5-byte
destination, the failed transfer leaves the destination deleted — the
destination was modified, contradicting "never created or modified". -/
theorem c6_rename_failure_modifies_dest_cex :
    wRenFail.fileExists = true
    ∧ (initFS wRenFail).dest = some 5
    ∧ (download wRenFail true 16 30).1.success = false
    ∧ (download wRenFail true 16 30).1.error = some ErrMsg.renameFailed
    ∧ (download wRenFail true 16 30).2.1.dest = none := by
  refine ⟨rfl, rfl, by decide, by decide, by decide⟩

end HMT
